import Mathlib

/-!
Verification of the transaction modelling and validation engine of the
journal-entries-with-beancount-and-fava repository.

Monetary amounts are embedded as exact rationals (ℚ): the Python sources use
`decimal.Decimal` (exact base-10 arithmetic) for validation and reconciliation,
and binary floats only inside the VAT splitter; both are modelled here by the
exact rational value of the computation.  Character classes used by the
name-normalization regexes are modelled over ASCII plus the Georgian block
U+10D0–U+10F0 that the regexes name explicitly (Python's Unicode `\w` covers
further scripts that never occur in this domain).
-/

namespace Journal

/-! ## Character classes

These mirror the character classes used by `clean_organization_name`
(src/excel_to_beancount.py lines 114-143, identical copies in
src/cash_payment_detector.py and src/tbc_payments_importer.py). -/

/-- ASCII digit `0`-`9`. -/
def isDigitC (c : Char) : Bool := 48 ≤ c.toNat && c.toNat ≤ 57

/-- ASCII letter `A`-`Z` or `a`-`z`. -/
def isAsciiLetter (c : Char) : Bool :=
  (65 ≤ c.toNat && c.toNat ≤ 90) || (97 ≤ c.toNat && c.toNat ≤ 122)

/-- Georgian Mkhedruli letter, the range `ა-ჰ` (U+10D0 to U+10F0) named in the
cleaning regex. -/
def isGeorgian (c : Char) : Bool := 0x10D0 ≤ c.toNat && c.toNat ≤ 0x10F0

/-- The model of Python's `str.isalnum` on the character repertoire of this
domain: ASCII alphanumerics and Georgian letters. -/
def pyAlnum (c : Char) : Bool := isDigitC c || isAsciiLetter c || isGeorgian c

/-- Whitespace as matched by Python's `str.strip()` and the regex class `\s`
(space, tab, newline, carriage return, vertical tab, form feed). -/
def isWs (c : Char) : Bool :=
  c.toNat = 32 || c.toNat = 9 || c.toNat = 10 || c.toNat = 13 ||
  c.toNat = 11 || c.toNat = 12

/-- Word character of the regex `\w` restricted to this domain's repertoire:
alphanumeric or underscore. -/
def wordChar (c : Char) : Bool := pyAlnum c || c = '_'

/-- Characters collapsed into a hyphen by the regex `[\s\-\(\)]+`. -/
def sepChar (c : Char) : Bool := isWs c || c = '-' || c = '(' || c = ')'

/-- Characters kept by the deletion regex `[^\w\s\-\(\)ა-ჰ]` (everything else
is removed). -/
def keepChar (c : Char) : Bool := wordChar c || sepChar c

/-- Hyphen or underscore, the set stripped from both ends by `strip('-_')`. -/
def dashUnd (c : Char) : Bool := c = '-' || c = '_'

/-! ## Name normalization pipeline (`clean_organization_name`) -/

/-- `str.strip()`: drop whitespace from both ends. -/
def stripWs (l : List Char) : List Char :=
  ((l.dropWhile isWs).reverse.dropWhile isWs).reverse

/-- `str.strip('-_')`: drop hyphens and underscores from both ends. -/
def stripDU (l : List Char) : List Char :=
  ((l.dropWhile dashUnd).reverse.dropWhile dashUnd).reverse

/-- Worker for `re.sub(r'[\s\-\(\)]+', '-', s)`: each maximal run of separator
characters becomes a single hyphen.  The boolean state records whether the
previous character belonged to a separator run. -/
def collapseAux : Bool → List Char → List Char
  | _, [] => []
  | inSep, c :: t =>
    if sepChar c then
      if inSep then collapseAux true t else '-' :: collapseAux true t
    else c :: collapseAux false t

/-- `re.sub(r'[\s\-\(\)]+', '-', s)`. -/
def collapseSeps (l : List Char) : List Char := collapseAux false l

/-- The branch `if clean_name and not clean_name[0].isalnum(): 'C' + clean_name`. -/
def prefixC (l : List Char) : List Char :=
  match l with
  | [] => []
  | c :: _ => if pyAlnum c then l else 'C' :: l

/-- `clean_name.replace('_', '-')`. -/
def replaceUnd (l : List Char) : List Char :=
  l.map (fun c => if c = '_' then '-' else c)

/-- `if len(clean_name) > 50: clean_name = clean_name[:50]`. -/
def truncate50 (l : List Char) : List Char :=
  if 50 < l.length then l.take 50 else l

/-- The normalization steps of `clean_organization_name` before the final
`"Unknown"` fallback, in source order: strip whitespace, delete disallowed
characters, collapse separator runs to hyphens, strip `-_` from the ends,
prefix `C` when the first character is not alphanumeric, replace underscores
by hyphens, truncate to 50 characters. -/
def cleanCore (l : List Char) : List Char :=
  truncate50 (replaceUnd (prefixC (stripDU (collapseSeps (List.filter keepChar (stripWs l))))))

/-- `clean_organization_name` (src/excel_to_beancount.py lines 114-143; the
same function appears as `clean_customer_name` in src/tbc_payments_importer.py
lines 118-147): the normalization steps followed by the `"Unknown"` fallback
for an empty result. -/
def cleanOrganizationName (l : List Char) : List Char :=
  let r := cleanCore l
  if r = [] then "Unknown".toList else r

/-- String-level wrapper of `cleanOrganizationName`. -/
def cleanOrgName (s : String) : String :=
  String.mk (cleanOrganizationName s.toList)

/-! ## Payment-method classification

src/excel_to_beancount.py lines 145-172 (`get_customer_accounts`,
`determine_payment_account`) and src/cash_payment_detector.py lines 109-121
(`is_cash_payment`). -/

/-- Is `needle` a contiguous substring of `haystack` (Python's `in` on str)? -/
def substrB (needle : List Char) : List Char → Bool
  | [] => needle.isEmpty
  | c :: t => needle.isPrefixOf (c :: t) || substrB needle t

/-- Python `str.lower()` restricted to this domain's repertoire: ASCII letters
are lowercased, Georgian Mkhedruli and everything else is unaffected. -/
def lowerList (l : List Char) : List Char := l.map Char.toLower

/-- The cash-indicator word list of `determine_payment_account`
(src/excel_to_beancount.py line 165). -/
def cashWordsXL : List String := ["cash", "ნაღდი", "ნაღ", "კეში"]

/-- The bank-indicator word list of `determine_payment_account`
(src/excel_to_beancount.py line 168). -/
def bankWordsXL : List String := ["bank", "ბანკი", "transfer", "card", "ბარათი"]

/-- Does the lowercased payment-method field contain one of the cash
indicators? -/
def hasCashIndicator (s : String) : Bool :=
  cashWordsXL.any (fun w => substrB w.toList (lowerList s.toList))

/-- Does the lowercased payment-method field contain one of the bank
indicators? -/
def hasBankIndicator (s : String) : Bool :=
  bankWordsXL.any (fun w => substrB w.toList (lowerList s.toList))

/-- The customer-specific account names built by `get_customer_accounts`
(src/excel_to_beancount.py lines 145-155). -/
structure CustomerAccounts where
  bank : String
  cash : String
  sales : String
  vat : String
  receivables : String
deriving DecidableEq

/-- `get_customer_accounts` (src/excel_to_beancount.py lines 145-155). -/
def get_customer_accounts (organization : String) : CustomerAccounts :=
  let n := cleanOrgName organization
  { bank := "Assets:Bank:Checking:" ++ n
    cash := "Assets:Cash:" ++ n
    sales := "Income:Sales:" ++ n
    vat := "Liabilities:VAT:Output:" ++ n
    receivables := "Assets:Receivables:" ++ n }

/-- `determine_payment_account` (src/excel_to_beancount.py lines 157-172).
`none` models a missing field (`pd.isna`).  The cash indicators are checked
first; the bank-indicator branch and the final fallback both return the bank
account. -/
def determine_payment_account (payment_method : Option String)
    (accounts : CustomerAccounts) : String :=
  match payment_method with
  | none => accounts.bank
  | some s =>
    let p := lowerList s.toList
    if cashWordsXL.any (fun w => substrB w.toList p) then accounts.cash
    else if bankWordsXL.any (fun w => substrB w.toList p) then accounts.bank
    else accounts.bank

/-- `is_cash_payment` (src/cash_payment_detector.py lines 109-121): lowercase
and strip the field, then look for any indicator of the detector's
`cash_indicators` list (`"ნაღდი ფული"` is redundant with `"ნაღდი"`). -/
def is_cash_payment (payment_method : Option String) : Bool :=
  match payment_method with
  | none => false
  | some s =>
    let p := stripWs (lowerList s.toList)
    ["ნაღდი", "ნაღ", "კეში", "cash", "ნაღდი ფული"].any
      (fun w => substrB w.toList p)

/-! ## VAT splitter

`calculate_vat_amounts` (src/excel_to_beancount.py lines 174-184, identical in
src/cash_payment_detector.py lines 184-188).  The Python function computes
with binary floats; the embedding computes the same expressions exactly over
ℚ.  It performs no validation and no rounding: rounding to two decimals
happens only when entries are serialized with `{:.2f}`. -/

/-- The configured VAT rate `self.vat_rate = 0.18`, as the exact decimal it
denotes. -/
def vatRate : ℚ := 18 / 100

/-- `calculate_vat_amounts`: `net = total / (1 + rate)`,
`vat = total - net`, returned as `(net, vat)` with no rounding and no
validation. -/
def calculate_vat_amounts (rate total : ℚ) : ℚ × ℚ :=
  let net := total / (1 + rate)
  (net, total - net)

/-- The numeric core of `create_beancount_entry` (src/excel_to_beancount.py
lines 186-221): a zero cleaned amount is skipped (`return None`), otherwise
the entry's three posting amounts are the total on the asset account and the
negated net and VAT amounts.  String assembly and date formatting are
serialization, outside this model. -/
def create_beancount_entry_amounts (total : ℚ) : Option (ℚ × ℚ × ℚ) :=
  if total = 0 then none
  else
    let nv := calculate_vat_amounts vatRate total
    some (total, -nv.1, -nv.2)

/-! ## Amount parsing (`make_amount`)

src/core/protocols.py lines 32-35:
`Decimal(str(value)).quantize(Decimal('0.01'), rounding=ROUND_HALF_UP)`.
The embedding models the decimal numeric-string grammar: after stripping
surrounding whitespace and digit-separator underscores, a string is an
optionally signed numeral `digits [. digits] | . digits` with an optional
`e`/`E` exponent, or one of the special values `NaN` (with optional
diagnostic digits), `sNaN`, `Infinity`/`Inf` (all case-insensitive).
Quantize rounds a finite value half-away-from-zero (`ROUND_HALF_UP`),
propagates a quiet NaN unchanged, and signals `InvalidOperation` on a
signaling NaN or an infinity. -/

/-- Value of a digit list read in base 10. -/
def natOfDigits (l : List Char) : Nat :=
  l.foldl (fun n c => 10 * n + (c.toNat - 48)) 0

/-- Outcome of constructing a `Decimal` from a string: a finite value kept as
the decimal module keeps it — a sign, an integer coefficient and an exponent,
denoting `±coeff × 10^exp` — or a quiet NaN, a signaling NaN, or an
infinity. -/
inductive DecValue where
  | num (sign : Bool) (coeff : ℕ) (exp : ℤ)
  | qnan
  | snan
  | inf
deriving DecidableEq

/-- The rational value denoted by a finite decimal `±coeff × 10^exp`. -/
def decValueQ (sign : Bool) (coeff : ℕ) (exp : ℤ) : ℚ :=
  (cond sign (-1) 1) * (coeff : ℚ) * (10 : ℚ) ^ exp

/-- Parse the optional exponent part `('e'|'E') [sign] digits` after a
coefficient with `scale` fractional digits; the whole remaining input must be
consumed. -/
def parseExpPart (sign : Bool) (coeff : ℕ) (scale : ℕ) (r : List Char) :
    Option DecValue :=
  match r with
  | [] => some (.num sign coeff (-(scale : ℤ)))
  | 'e' :: r1 =>
    let (eneg, r2) : Bool × List Char :=
      match r1 with
      | '+' :: t => (false, t)
      | '-' :: t => (true, t)
      | t => (false, t)
    let (ed, r3) := r2.span isDigitC
    if ed = [] ∨ r3 ≠ [] then none
    else
      some (.num sign coeff
        ((cond eneg (-1) 1) * (natOfDigits ed : ℤ) - (scale : ℤ)))
  | _ => none

/-- Parse the numeric part `digits [. digits] | [digits] . digits` with an
optional exponent, after the sign has been removed. -/
def parseNumericPart (sign : Bool) (l : List Char) : Option DecValue :=
  let (ip, r) := l.span isDigitC
  match r with
  | [] => if ip = [] then none else some (.num sign (natOfDigits ip) 0)
  | '.' :: r2 =>
    let (fp, r3) := r2.span isDigitC
    if ip = [] ∧ fp = [] then none
    else parseExpPart sign (natOfDigits (ip ++ fp)) fp.length r3
  | 'e' :: _ =>
    if ip = [] then none else parseExpPart sign (natOfDigits ip) 0 r
  | _ => none

/-- Does `l` read `nan` followed only by optional diagnostic digits? -/
def isNanLiteral (l : List Char) : Bool :=
  l.take 3 = ['n', 'a', 'n'] && (l.drop 3).all isDigitC

/-- Does `l` read `snan` followed only by optional diagnostic digits? -/
def isSNanLiteral (l : List Char) : Bool :=
  l.take 4 = ['s', 'n', 'a', 'n'] && (l.drop 4).all isDigitC

/-- `Decimal(s)` on a string: strip surrounding whitespace, drop the digit
separators, lowercase, strip the optional sign, then read either a special
value or a numeral.  `none` models `InvalidOperation` raised at
construction. -/
def parseDecimalString (s : String) : Option DecValue :=
  let l := lowerList ((stripWs s.toList).filter (fun c => c ≠ '_'))
  let (sgn, l2) : Bool × List Char :=
    match l with
    | '+' :: t => (false, t)
    | '-' :: t => (true, t)
    | t => (false, t)
  if isNanLiteral l2 then some .qnan
  else if isSNanLiteral l2 then some .snan
  else if l2 = "inf".toList ∨ l2 = "infinity".toList then some .inf
  else parseNumericPart sgn l2

/-- Round a rational to an integer, ties away from zero (`ROUND_HALF_UP`). -/
def roundHalfUpZ (x : ℚ) : ℤ :=
  if 0 ≤ x then ⌊x + 1 / 2⌋ else -⌊-x + 1 / 2⌋

/-- The magnitude in cents of `coeff × 10^exp` quantized to two decimal
places with `ROUND_HALF_UP`: when `exp + 2 ≥ 0` the value times 100 is the
exact integer `coeff * 10^(exp+2)`; otherwise it is `coeff / 10^k` for
`k = -(exp+2) > 0`, rounded half-up by integer division (`10^k` is even, so
adding half the divisor before dividing rounds ties up). -/
def quantizeMag (coeff : ℕ) (exp : ℤ) : ℕ :=
  if 0 ≤ exp + 2 then coeff * 10 ^ (exp + 2).toNat
  else (coeff + 10 ^ (-(exp + 2)).toNat / 2) / 10 ^ (-(exp + 2)).toNat

/-- The number of cents of `±coeff × 10^exp` quantized to two decimal places
with `ROUND_HALF_UP` (ties away from zero). -/
def quantizeCents (sign : Bool) (coeff : ℕ) (exp : ℤ) : ℤ :=
  if sign then -(quantizeMag coeff exp : ℤ) else (quantizeMag coeff exp : ℤ)

/-- Result of `make_amount`: a finite amount, a silently propagated NaN
amount, or a raised exception. -/
inductive AmountResult where
  | ok (q : ℚ)
  | nanAmount
  | err
deriving DecidableEq

/-- The cents-level result of `make_amount`, kept in integers so that closed
inputs evaluate. -/
inductive CentsResult where
  | ok (cents : ℤ)
  | nanAmount
  | err
deriving DecidableEq

/-- `make_amount` at the cents level: construct the decimal, then quantize to
`0.01` with `ROUND_HALF_UP`.  Construction failure and the quantize of an
infinity or signaling NaN raise (`err`); a quiet NaN passes through quantize
unchanged (`nanAmount`). -/
def make_amount_cents (s : String) : CentsResult :=
  match parseDecimalString s with
  | none => .err
  | some (.num sign coeff exp) => .ok (quantizeCents sign coeff exp)
  | some .qnan => .nanAmount
  | some .snan => .err
  | some .inf => .err

/-- `make_amount` (src/core/protocols.py lines 32-35) on a string input:
`Decimal(str(value)).quantize(Decimal('0.01'), rounding=ROUND_HALF_UP)`, the
resulting amount being the quantized number of cents over 100. -/
def make_amount (s : String) : AmountResult :=
  match make_amount_cents s with
  | .ok cents => .ok ((cents : ℚ) / 100)
  | .nanAmount => .nanAmount
  | .err => .err

/-! ## Postings and transactions

src/core/protocols.py lines 83-148. -/

/-- One posting: account, amount, currency (src/core/protocols.py lines
83-106).  The amount is the exact decimal value. -/
structure Posting where
  account : String
  amount : ℚ
  currency : String
deriving DecidableEq

/-- A constructed transaction (src/core/protocols.py lines 109-148). -/
structure Transaction where
  id : String
  date : String
  description : String
  postings : List Posting
  metadata : List (String × String)
deriving DecidableEq

/-- Sum of the posting amounts of a posting list. -/
def postingsTotal (ps : List Posting) : ℚ := (ps.map Posting.amount).sum

/-- The checked constructor of `Transaction`: `__post_init__`
(src/core/protocols.py lines 123-136) raises `ValueError` unless there are at
least two postings, the amounts sum to within `0.01` of zero, and the set of
currencies has at most one element. -/
def buildTransaction (id date description : String) (ps : List Posting)
    (metadata : List (String × String)) : Except String Transaction :=
  if ps.length < 2 then
    .error "Transaction must have at least 2 postings"
  else if 1 / 100 < |postingsTotal ps| then
    .error "Transaction does not balance"
  else if 1 < ((ps.map Posting.currency).dedup).length then
    .error "Mixed currencies in transaction"
  else
    .ok ⟨id, date, description, ps, metadata⟩

/-! ## Ledger reconciliation

src/analyze_accounts.py (per-account totals, balance check) and
src/compare_excel_beancount.py (count cross-check). -/

/-- Add `amt` to the entry of `key` in an association list with unique keys
(the model of a Python dict update). -/
def bumpKey (key : String) (amt : ℚ) : List (String × ℚ) → List (String × ℚ)
  | [] => []
  | kv :: t => if kv.1 = key then (kv.1, kv.2 + amt) :: t else kv :: bumpKey key amt t

/-- Fold one posting into the per-account running-total association list,
as `accounts[account_name] += amount` does on the `defaultdict`
(src/analyze_accounts.py lines 30-37); only `GEL` postings are counted. -/
def addPosting (m : List (String × ℚ)) (p : Posting) : List (String × ℚ) :=
  if p.currency = "GEL" then
    if m.any (fun kv => kv.1 = p.account) then bumpKey p.account p.amount m
    else m ++ [(p.account, p.amount)]
  else m

/-- Per-account totals of a ledger, the `accounts` dictionary of
`analyze_beancount_accounts`. -/
def perAccountTotals (l : List Posting) : List (String × ℚ) :=
  l.foldl addPosting []

/-- `total_balance = sum(accounts.values())` (src/analyze_accounts.py line
87). -/
def totalBalance (l : List Posting) : ℚ :=
  ((perAccountTotals l).map Prod.snd).sum

/-- The ledger balance check `total_balance == 0`
(src/analyze_accounts.py line 89): exact equality with zero. -/
def zero_sum_check (l : List Posting) : Bool :=
  totalBalance l == 0

/-- Sum of the GEL posting amounts of a ledger, without the per-account
grouping. -/
def ledgerTotal (l : List Posting) : ℚ :=
  ((l.filter (fun p => p.currency = "GEL")).map Posting.amount).sum

/-- The count-reconciliation verdict of `compare_excel_to_beancount`
(src/compare_excel_beancount.py lines 74-82). -/
inductive Diagnosis where
  | matched
  | ledgerHasExtra (n : Nat)
  | ledgerMissing (n : Nat)
deriving DecidableEq

/-- `cross_check_counts`: the classification printed by
`compare_excel_to_beancount` (src/compare_excel_beancount.py lines 74-82),
with the surplus `len(tbc_amounts) - excel_count` or the deficit
`excel_count - len(tbc_amounts)`. -/
def cross_check_counts (source_count ledger_count : Nat) : Diagnosis :=
  if ledger_count > source_count then
    .ledgerHasExtra (ledger_count - source_count)
  else if ledger_count < source_count then
    .ledgerMissing (source_count - ledger_count)
  else .matched

/-! ## The `Result` container

src/core/protocols.py lines 158-182. -/

/-- The runtime-checked value-or-error container.  The two fields mirror the
Python dataclass; Python's `None` in a field is `Option.none`.  For a
payload type with no non-`None` inhabitants (`Result[None, E]`), `T` is
`Empty`. -/
structure PResult (T E : Type) where
  value : Option T
  error : Option E

/-- The checked constructor: `__post_init__` raises unless exactly one of
`value`, `error` is non-`None` (src/core/protocols.py lines 164-166). -/
def mkResult {T E : Type} (value : Option T) (error : Option E) :
    Option (PResult T E) :=
  if value.isNone = error.isNone then none else some ⟨value, error⟩

/-- `Result.is_ok`: `self.value is not None`. -/
def PResult.is_ok {T E : Type} (r : PResult T E) : Bool := r.value.isSome

/-- `Result.is_err`: `self.error is not None`. -/
def PResult.is_err {T E : Type} (r : PResult T E) : Bool := r.error.isSome

/-- `Result.unwrap`: raise (`none`) when an error is held, otherwise return
the value field. -/
def PResult.unwrap {T E : Type} (r : PResult T E) : Option T :=
  if r.error.isSome then none else r.value

/-! ## Predicates used by the claim statements -/

/-- A character allowed in an account-name segment: alphanumeric (including
the Georgian letters) or hyphen. -/
def allowedNameChar (c : Char) : Bool := pyAlnum c || c = '-'

/-- Does the list contain two adjacent hyphens? -/
def noDoubleHyphen : List Char → Bool
  | [] => true
  | [_] => true
  | a :: b :: t => !(a = '-' && b = '-') && noDoubleHyphen (b :: t)

/-- Does the list end with a hyphen? -/
def endsWithHyphen (l : List Char) : Bool := l.getLast? == some '-'

/-- Is `q` representable with two decimal places? -/
def isTwoDp (q : ℚ) : Bool := (q * 100).den == 1

/-! ## Character-class lemmas -/

theorem pyAlnum_not_sep {c : Char} (h : pyAlnum c = true) :
    isWs c = false ∧ c ≠ '(' ∧ c ≠ ')' ∧ c ≠ '-' ∧ c ≠ '_' := by
  refine ⟨?_, ?_, ?_, ?_, ?_⟩
  · simp only [pyAlnum, isDigitC, isAsciiLetter, isGeorgian, Bool.or_eq_true,
      Bool.and_eq_true, decide_eq_true_eq] at h
    simp only [isWs, Bool.or_eq_false_iff, decide_eq_false_iff_not]
    omega
  all_goals
    rintro rfl
    exact absurd h (by decide)

theorem allowedNameChar_cases {c : Char} (h : allowedNameChar c = true) :
    pyAlnum c = true ∨ c = '-' := by
  simpa [allowedNameChar] using h

theorem allowedNameChar_not_ws {c : Char} (h : allowedNameChar c = true) :
    isWs c = false := by
  rcases allowedNameChar_cases h with h1 | rfl
  · exact (pyAlnum_not_sep h1).1
  · rfl

theorem allowedNameChar_ne_und {c : Char} (h : allowedNameChar c = true) :
    c ≠ '_' := by
  rcases allowedNameChar_cases h with h1 | rfl
  · exact (pyAlnum_not_sep h1).2.2.2.2
  · decide

theorem allowedNameChar_sep {c : Char} (h : allowedNameChar c = true)
    (hs : sepChar c = true) : c = '-' := by
  rcases allowedNameChar_cases h with h1 | rfl
  · obtain ⟨hw, h1', h2', h3', _⟩ := pyAlnum_not_sep h1
    simp [sepChar, hw, h1', h2', h3'] at hs
  · rfl

theorem allowedNameChar_keep {c : Char} (h : allowedNameChar c = true) :
    keepChar c = true := by
  rcases allowedNameChar_cases h with h1 | rfl
  · simp [keepChar, wordChar, h1]
  · decide

/-! ## Generic list-stage lemmas -/

theorem dropWhile_head_false {p : Char → Bool} {l : List Char}
    (h : ∀ c, l.head? = some c → p c = false) : l.dropWhile p = l := by
  cases l with
  | nil => rfl
  | cons c t => simp [List.dropWhile_cons, h c rfl]

theorem dropWhile_all_false {p : Char → Bool} {l : List Char}
    (h : ∀ c ∈ l, p c = false) : l.dropWhile p = l := by
  refine dropWhile_head_false (fun c hc => h c ?_)
  cases l with
  | nil => simp at hc
  | cons a t =>
    simp only [List.head?_cons, Option.some_inj] at hc
    simp [hc]

theorem mem_stripWs {c : Char} {l : List Char} (h : c ∈ stripWs l) : c ∈ l := by
  unfold stripWs at h
  rw [List.mem_reverse] at h
  have h2 := (List.dropWhile_sublist _).subset h
  rw [List.mem_reverse] at h2
  exact (List.dropWhile_sublist _).subset h2

theorem mem_stripDU {c : Char} {l : List Char} (h : c ∈ stripDU l) : c ∈ l := by
  unfold stripDU at h
  rw [List.mem_reverse] at h
  have h2 := (List.dropWhile_sublist _).subset h
  rw [List.mem_reverse] at h2
  exact (List.dropWhile_sublist _).subset h2

theorem mem_collapseAux {c : Char} (l : List Char) :
    ∀ b : Bool, c ∈ collapseAux b l →
      c = '-' ∨ (c ∈ l ∧ sepChar c = false) := by
  induction l with
  | nil => intro b h; simp [collapseAux] at h
  | cons d t ih =>
    intro b h
    by_cases hd : sepChar d = true
    · cases b with
      | true =>
        simp only [collapseAux, hd, if_true, ite_true] at h
        rcases ih true h with h1 | ⟨h2, h3⟩
        · exact Or.inl h1
        · exact Or.inr ⟨List.mem_cons_of_mem _ h2, h3⟩
      | false =>
        simp only [collapseAux, hd, if_true, ite_true, Bool.false_eq_true,
          if_false, ite_false, List.mem_cons] at h
        rcases h with rfl | h
        · exact Or.inl rfl
        · rcases ih true h with h1 | ⟨h2, h3⟩
          · exact Or.inl h1
          · exact Or.inr ⟨List.mem_cons_of_mem _ h2, h3⟩
    · simp only [collapseAux] at h
      rw [if_neg (by simp [hd])] at h
      rcases List.mem_cons.mp h with rfl | h
      · exact Or.inr ⟨List.mem_cons_self _ _, by simpa using hd⟩
      · rcases ih false h with h1 | ⟨h2, h3⟩
        · exact Or.inl h1
        · exact Or.inr ⟨List.mem_cons_of_mem _ h2, h3⟩

theorem mem_prefixC {c : Char} {l : List Char} (h : c ∈ prefixC l) :
    c = 'C' ∨ c ∈ l := by
  cases l with
  | nil => simp [prefixC] at h
  | cons d t =>
    simp only [prefixC] at h
    by_cases hd : pyAlnum d = true
    · rw [if_pos hd] at h; exact Or.inr h
    · rw [if_neg hd] at h
      rcases List.mem_cons.mp h with rfl | h
      · exact Or.inl rfl
      · exact Or.inr h

theorem mem_replaceUnd {c : Char} {l : List Char} (h : c ∈ replaceUnd l) :
    c = '-' ∨ (c ∈ l ∧ c ≠ '_') := by
  simp only [replaceUnd, List.mem_map] at h
  obtain ⟨a, ha, hac⟩ := h
  by_cases h2 : a = '_'
  · subst h2; simp only [if_pos rfl] at hac; exact Or.inl hac.symm
  · rw [if_neg h2] at hac; subst hac; exact Or.inr ⟨ha, h2⟩

theorem mem_truncate50 {c : Char} {l : List Char} (h : c ∈ truncate50 l) :
    c ∈ l := by
  unfold truncate50 at h
  by_cases h50 : 50 < l.length
  · rw [if_pos h50] at h; exact List.take_subset _ _ h
  · rwa [if_neg h50] at h

/-! ## Properties of the normalization output -/

theorem mem_cleanCore_allowed {c : Char} {l : List Char}
    (h : c ∈ cleanCore l) : allowedNameChar c = true := by
  have h1 := mem_truncate50 h
  rcases mem_replaceUnd h1 with rfl | ⟨h2, hund⟩
  · simp [allowedNameChar]
  rcases mem_prefixC h2 with rfl | h3
  · decide
  have h4 := mem_stripDU h3
  rcases mem_collapseAux _ _ h4 with rfl | ⟨h5, hsep⟩
  · simp [allowedNameChar]
  have h6 := List.of_mem_filter h5
  have h7 : wordChar c = true := by
    simp only [keepChar, Bool.or_eq_true] at h6
    rcases h6 with h6 | h6
    · exact h6
    · rw [h6] at hsep; cases hsep
  simp only [wordChar, Bool.or_eq_true, decide_eq_true_eq] at h7
  rcases h7 with h7 | h7
  · simp [allowedNameChar, h7]
  · exact absurd h7 hund

theorem mem_cleanOrganizationName_allowed {c : Char} {l : List Char}
    (h : c ∈ cleanOrganizationName l) : allowedNameChar c = true := by
  unfold cleanOrganizationName at h
  by_cases he : cleanCore l = []
  · rw [if_pos he] at h
    fin_cases h <;> decide
  · rw [if_neg he] at h
    exact mem_cleanCore_allowed h

theorem truncate50_length_le (l : List Char) : (truncate50 l).length ≤ 50 := by
  unfold truncate50
  by_cases h50 : 50 < l.length
  · rw [if_pos h50]; simp
  · rw [if_neg h50]; omega

theorem cleanOrganizationName_length_le (l : List Char) :
    (cleanOrganizationName l).length ≤ 50 := by
  unfold cleanOrganizationName
  by_cases he : cleanCore l = []
  · rw [if_pos he]; decide
  · rw [if_neg he]; exact truncate50_length_le _

theorem cleanOrganizationName_ne_nil (l : List Char) :
    cleanOrganizationName l ≠ [] := by
  unfold cleanOrganizationName
  by_cases he : cleanCore l = []
  · rw [if_pos he]; decide
  · rwa [if_neg he]

theorem mem_of_head?_eq {c : Char} {l : List Char} (h : l.head? = some c) :
    c ∈ l := by
  cases l with
  | nil => simp at h
  | cons a t =>
    simp only [List.head?_cons, Option.some_inj] at h
    simp [← h]

theorem mem_of_getLast?_eq {c : Char} {l : List Char} (h : l.getLast? = some c) :
    c ∈ l := by
  have h2 : l.reverse.head? = some c := by rw [List.head?_reverse]; exact h
  exact List.mem_reverse.mp (mem_of_head?_eq h2)

theorem head_dropWhile_false {p : Char → Bool} {l : List Char} {c : Char}
    (h : (l.dropWhile p).head? = some c) : p c = false := by
  induction l with
  | nil => simp at h
  | cons a t ih =>
    by_cases ha : p a = true
    · rw [List.dropWhile_cons, if_pos ha] at h; exact ih h
    · rw [List.dropWhile_cons, if_neg ha] at h
      simp only [List.head?_cons, Option.some_inj] at h
      rw [← h]
      simpa using ha

theorem head?_of_isPrefix {l m : List Char} {c : Char} (h : l <+: m)
    (hc : l.head? = some c) : m.head? = some c := by
  obtain ⟨r, rfl⟩ := h
  cases l with
  | nil => simp at hc
  | cons a t => simpa using hc

/-- The head of `stripDU l` is an element of `l` that is neither a hyphen nor
an underscore. -/
theorem stripDU_head {l : List Char} {c : Char}
    (h : (stripDU l).head? = some c) : c ∈ l ∧ dashUnd c = false := by
  have hform : stripDU l = (l.dropWhile dashUnd).rdropWhile dashUnd := rfl
  rw [hform] at h
  have hpre : (l.dropWhile dashUnd).rdropWhile dashUnd <+: l.dropWhile dashUnd :=
    List.rdropWhile_prefix _ _
  have h2 : (l.dropWhile dashUnd).head? = some c := head?_of_isPrefix hpre h
  exact ⟨(List.dropWhile_sublist _).subset (mem_of_head?_eq h2),
    head_dropWhile_false h2⟩

/-- The first character of a nonempty `cleanCore` output is alphanumeric:
after the final strip of hyphens and underscores the head is a kept
non-separator word character that is not an underscore. -/
theorem cleanCore_head_alnum {l : List Char} {c : Char}
    (h : (cleanCore l).head? = some c) : pyAlnum c = true := by
  unfold cleanCore at h
  set z := stripDU (collapseSeps (List.filter keepChar (stripWs l))) with hz
  cases hzc : z with
  | nil =>
    rw [hzc] at h
    simp [prefixC, replaceUnd, truncate50] at h
  | cons d t =>
    have hdz : z.head? = some d := by rw [hzc]; rfl
    obtain ⟨hdmem, hddu⟩ := stripDU_head (hz ▸ hdz)
    have hd : pyAlnum d = true := by
      rcases mem_collapseAux _ _ hdmem with rfl | ⟨h5, hsep⟩
      · simp [dashUnd] at hddu
      · have h6 := List.of_mem_filter h5
        have h7 : wordChar d = true := by
          simp only [keepChar, Bool.or_eq_true] at h6
          rcases h6 with h6 | h6
          · exact h6
          · rw [h6] at hsep; cases hsep
        simp only [wordChar, Bool.or_eq_true, decide_eq_true_eq] at h7
        rcases h7 with h7 | h7
        · exact h7
        · subst h7; simp [dashUnd] at hddu
    rw [hzc] at h
    have hpre : prefixC (d :: t) = d :: t := by simp [prefixC, hd]
    rw [hpre] at h
    have hrep : (replaceUnd (d :: t)).head? = some d := by
      have hdu : d ≠ '_' := fun hdeq => by subst hdeq; simp [dashUnd] at hddu
      simp [replaceUnd, hdu]
    have htr : (truncate50 (replaceUnd (d :: t))).head? = some d := by
      unfold truncate50
      by_cases h50 : 50 < (replaceUnd (d :: t)).length
      · rw [if_pos h50]
        cases hre : replaceUnd (d :: t) with
        | nil => rw [hre] at hrep; simp at hrep
        | cons e r =>
          rw [hre] at hrep
          simp only [List.head?_cons, Option.some_inj] at hrep
          rw [show (50 : Nat) = 49 + 1 from rfl, List.take_succ_cons]
          simpa using hrep
      · rw [if_neg h50]; exact hrep
    rw [h] at htr
    simp only [Option.some_inj] at htr
    rw [htr]
    exact hd

theorem cleanOrganizationName_head_alnum {l : List Char} {c : Char}
    (h : (cleanOrganizationName l).head? = some c) : pyAlnum c = true := by
  unfold cleanOrganizationName at h
  by_cases he : cleanCore l = []
  · rw [if_pos he] at h
    simp only [show ("Unknown".toList) = 'U' :: "nknown".toList from rfl,
      List.head?_cons, Option.some_inj] at h
    rw [← h]; decide
  · rw [if_neg he] at h
    exact cleanCore_head_alnum h

/-! ## Identity of the normalization on already-normalized strings -/

theorem stripWs_id {l : List Char} (h : ∀ c ∈ l, isWs c = false) :
    stripWs l = l := by
  unfold stripWs
  rw [dropWhile_all_false h,
    dropWhile_all_false (fun c hc => h c (List.mem_reverse.mp hc)),
    List.reverse_reverse]

theorem stripDU_id {l : List Char}
    (hhead : ∀ c, l.head? = some c → dashUnd c = false)
    (hlast : ∀ c, l.getLast? = some c → dashUnd c = false) :
    stripDU l = l := by
  unfold stripDU
  rw [dropWhile_head_false hhead,
    dropWhile_head_false (fun c hc => hlast c (by rwa [List.head?_reverse] at hc)),
    List.reverse_reverse]

theorem noDoubleHyphen_tail {a : Char} {r : List Char}
    (h : noDoubleHyphen (a :: r) = true) : noDoubleHyphen r = true := by
  cases r with
  | nil => rfl
  | cons b t =>
    simp only [noDoubleHyphen, Bool.and_eq_true] at h ⊢
    exact h.2

theorem collapseAux_true_eq_false {l : List Char}
    (h : ∀ c, l.head? = some c → sepChar c = false) :
    collapseAux true l = collapseAux false l := by
  cases l with
  | nil => rfl
  | cons c t =>
    have hc := h c rfl
    simp [collapseAux, hc]

theorem collapseAux_false_id {l : List Char}
    (hsep : ∀ c ∈ l, sepChar c = true → c = '-')
    (hnd : noDoubleHyphen l = true) :
    collapseAux false l = l := by
  induction l with
  | nil => rfl
  | cons c t ih =>
    by_cases hc : sepChar c = true
    · have hcd : c = '-' := hsep c (List.mem_cons_self _ _) hc
      subst hcd
      have hstep : collapseAux false ('-' :: t) = '-' :: collapseAux true t := by
        simp [collapseAux, hc]
      rw [hstep]
      have hht : ∀ e, t.head? = some e → sepChar e = false := by
        intro e he
        cases t with
        | nil => simp at he
        | cons b r =>
          simp only [List.head?_cons, Option.some_inj] at he
          subst he
          simp only [noDoubleHyphen, Bool.and_eq_true, Bool.not_eq_true',
            Bool.and_eq_false_iff, decide_eq_true_eq, decide_eq_false_iff_not] at hnd
          have hb : ¬ (b = '-') := by
            rcases hnd.1 with h9 | h9
            · exact absurd trivial h9
            · exact h9
          by_contra hbs
          exact hb (hsep b (List.mem_cons_of_mem _ (List.mem_cons_self _ _))
            (by simpa using hbs))
      rw [collapseAux_true_eq_false hht]
      rw [ih (fun e he hs => hsep e (List.mem_cons_of_mem _ he) hs)
        (noDoubleHyphen_tail hnd)]
    · have hstep : collapseAux false (c :: t) = c :: collapseAux false t := by
        simp [collapseAux, hc]
      rw [hstep,
        ih (fun e he hs => hsep e (List.mem_cons_of_mem _ he) hs)
          (noDoubleHyphen_tail hnd)]

theorem prefixC_id {l : List Char}
    (h : ∀ c, l.head? = some c → pyAlnum c = true) : prefixC l = l := by
  cases l with
  | nil => rfl
  | cons c t => simp [prefixC, h c rfl]

theorem replaceUnd_id {l : List Char} (h : ∀ c ∈ l, c ≠ '_') :
    replaceUnd l = l := by
  unfold replaceUnd
  conv_rhs => rw [← List.map_id l]
  exact List.map_congr_left (fun a ha => by simp [h a ha])

theorem truncate50_id {l : List Char} (h : l.length ≤ 50) :
    truncate50 l = l := by
  unfold truncate50
  rw [if_neg (by omega)]

/-- A nonempty string of at most 50 allowed characters that starts with an
alphanumeric character, has no two adjacent hyphens and does not end in a
hyphen is a fixed point of the normalization. -/
theorem cleanOrganizationName_fixed {y : List Char}
    (hne : y ≠ [])
    (hlen : y.length ≤ 50)
    (hall : ∀ c ∈ y, allowedNameChar c = true)
    (hhead : ∀ c, y.head? = some c → pyAlnum c = true)
    (hnd : noDoubleHyphen y = true)
    (hlast : endsWithHyphen y = false) :
    cleanOrganizationName y = y := by
  have h1 : stripWs y = y :=
    stripWs_id (fun c hc => allowedNameChar_not_ws (hall c hc))
  have h2 : List.filter keepChar y = y :=
    List.filter_eq_self.mpr (fun c hc => by rw [allowedNameChar_keep (hall c hc)])
  have h3 : collapseSeps y = y :=
    collapseAux_false_id (fun c hc hs => allowedNameChar_sep (hall c hc) hs) hnd
  have h4 : stripDU y = y := by
    refine stripDU_id (fun c hc => ?_) (fun c hc => ?_)
    · have hp := hhead c hc
      obtain ⟨_, _, _, hd, hu⟩ := pyAlnum_not_sep hp
      simp [dashUnd, hd, hu]
    · have hmem := mem_of_getLast?_eq hc
      have hnh : c ≠ '-' := by
        intro hceq
        subst hceq
        unfold endsWithHyphen at hlast
        rw [hc] at hlast
        simp at hlast
      have hnu : c ≠ '_' := allowedNameChar_ne_und (hall c hmem)
      simp [dashUnd, hnh, hnu]
  have h5 : prefixC y = y := prefixC_id hhead
  have h6 : replaceUnd y = y :=
    replaceUnd_id (fun c hc => allowedNameChar_ne_und (hall c hc))
  have h7 : truncate50 y = y := truncate50_id hlen
  have hcore : cleanCore y = y := by
    unfold cleanCore collapseSeps
    unfold collapseSeps at h3
    rw [h1, h2, h3, h4, h5, h6, h7]
  unfold cleanOrganizationName
  rw [hcore, if_neg hne]

/-! ## Currency-set lemma for transaction construction -/

theorem dedup_length_le_one_of_const {l : List String}
    (h : ∀ a ∈ l, ∀ b ∈ l, a = b) : l.dedup.length ≤ 1 := by
  induction l with
  | nil => simp
  | cons a t ih =>
    cases t with
    | nil => simp
    | cons b r =>
      have hab : a ∈ b :: r := by
        have := h b (by simp) a (by simp)
        simp [this]
      rw [List.dedup_cons_of_mem hab]
      exact ih (fun x hx y hy =>
        h x (List.mem_cons_of_mem _ hx) y (List.mem_cons_of_mem _ hy))

theorem const_of_dedup_length_le_one {l : List String}
    (h : l.dedup.length ≤ 1) : ∀ a ∈ l, ∀ b ∈ l, a = b := by
  intro a ha b hb
  have ha2 : a ∈ l.dedup := List.mem_dedup.mpr ha
  have hb2 : b ∈ l.dedup := List.mem_dedup.mpr hb
  cases hd : l.dedup with
  | nil => rw [hd] at ha2; simp at ha2
  | cons x t =>
    cases t with
    | nil =>
      rw [hd] at ha2 hb2
      simp only [List.mem_singleton] at ha2 hb2
      rw [ha2, hb2]
    | cons y r => rw [hd] at h; simp at h

/-! ## Regrouping lemma: per-account totals preserve the ledger sum -/

theorem sum_bumpKey (key : String) (amt : ℚ) (m : List (String × ℚ))
    (h : m.any (fun kv => kv.1 = key) = true) :
    ((bumpKey key amt m).map Prod.snd).sum = (m.map Prod.snd).sum + amt := by
  induction m with
  | nil => simp at h
  | cons kv t ih =>
    by_cases hk : kv.1 = key
    · simp only [bumpKey, if_pos hk, List.map_cons, List.sum_cons]
      ring
    · simp only [List.any_cons, Bool.or_eq_true, decide_eq_true_eq] at h
      rcases h with h | h
      · exact absurd h hk
      · simp only [bumpKey, if_neg hk, List.map_cons, List.sum_cons, ih h]
        ring

theorem sum_addPosting (m : List (String × ℚ)) (p : Posting) :
    ((addPosting m p).map Prod.snd).sum =
      (m.map Prod.snd).sum + (if p.currency = "GEL" then p.amount else 0) := by
  unfold addPosting
  by_cases hc : p.currency = "GEL"
  · rw [if_pos hc, if_pos hc]
    by_cases hm : m.any (fun kv => kv.1 = p.account) = true
    · rw [if_pos hm, sum_bumpKey _ _ _ hm]
    · rw [if_neg hm]
      simp
  · rw [if_neg hc, if_neg hc]
    ring

theorem foldl_addPosting_sum (l : List Posting) :
    ∀ m : List (String × ℚ),
      (((l.foldl addPosting m)).map Prod.snd).sum =
        (m.map Prod.snd).sum + ledgerTotal l := by
  induction l with
  | nil => intro m; simp [ledgerTotal]
  | cons p t ih =>
    intro m
    have hl : ledgerTotal (p :: t) =
        (if p.currency = "GEL" then p.amount else 0) + ledgerTotal t := by
      unfold ledgerTotal
      by_cases hc : p.currency = "GEL"
      · rw [List.filter_cons_of_pos (by simpa using hc), if_pos hc]
        simp
      · rw [List.filter_cons_of_neg (by simpa using hc), if_neg hc]
        ring_nf
    rw [List.foldl_cons, ih (addPosting m p), sum_addPosting, hl]
    ring

theorem totalBalance_eq_ledgerTotal (l : List Posting) :
    totalBalance l = ledgerTotal l := by
  unfold totalBalance perAccountTotals
  rw [foldl_addPosting_sum]
  simp

theorem ledgerTotal_append (a b : List Posting) :
    ledgerTotal (a ++ b) = ledgerTotal a + ledgerTotal b := by
  unfold ledgerTotal
  rw [List.filter_append, List.map_append, List.sum_append]

/-! ## Account-string lemma -/

theorem customer_cash_ne_bank (org : String) :
    (get_customer_accounts org).cash ≠ (get_customer_accounts org).bank := by
  intro h
  simp only [get_customer_accounts] at h
  have hlen := congrArg String.length h
  simp only [String.length_append] at hlen
  have h12 : "Assets:Cash:".length = 12 := rfl
  have h21 : "Assets:Bank:Checking:".length = 21 := rfl
  rw [h12, h21] at hlen
  exact absurd hlen (by norm_num)

/-! ## The integer-level quantization agrees with half-up rounding -/

theorem roundHalfUpZ_neg_eq {x : ℚ} (h : 0 ≤ x) :
    roundHalfUpZ (-x) = -roundHalfUpZ x := by
  unfold roundHalfUpZ
  rcases eq_or_lt_of_le h with heq | hlt
  · rw [← heq]
    norm_num
  · rw [if_neg (by linarith), if_pos h, neg_neg]

theorem decValueQ_true_eq_neg (coeff : ℕ) (exp : ℤ) :
    decValueQ true coeff exp = -decValueQ false coeff exp := by
  simp only [decValueQ, cond_true, cond_false]
  ring

theorem decValueQ_false_nonneg (coeff : ℕ) (exp : ℤ) :
    0 ≤ decValueQ false coeff exp := by
  simp only [decValueQ, cond_false]
  positivity

/-- The magnitude computation agrees with the half-up rounding of one hundred
times the nonnegative decimal value `coeff × 10^exp`. -/
theorem quantizeMag_eq_roundHalfUpZ (c : ℕ) (e : ℤ) :
    (quantizeMag c e : ℤ) = roundHalfUpZ (decValueQ false c e * 100) := by
  have hval : decValueQ false c e * 100 = (c : ℚ) * (10 : ℚ) ^ (e + 2) := by
    simp only [decValueQ, cond_false]
    rw [zpow_add₀ (by norm_num : (10 : ℚ) ≠ 0)]
    norm_num
    ring
  by_cases he : 0 ≤ e + 2
  · have hept : ((e + 2).toNat : ℤ) = e + 2 := Int.toNat_of_nonneg he
    have hnat : decValueQ false c e * 100 =
        ((c * 10 ^ (e + 2).toNat : ℕ) : ℚ) := by
      rw [hval, show (10 : ℚ) ^ (e + 2) = (10 : ℚ) ^ (((e + 2).toNat : ℤ)) by
        rw [hept], zpow_natCast]
      push_cast
      ring
    have hrnd : roundHalfUpZ (((c * 10 ^ (e + 2).toNat : ℕ) : ℚ)) =
        (c * 10 ^ (e + 2).toNat : ℕ) := by
      unfold roundHalfUpZ
      rw [if_pos (by positivity)]
      rw [show ((c * 10 ^ (e + 2).toNat : ℕ) : ℚ) =
        (((c * 10 ^ (e + 2).toNat : ℕ) : ℤ) : ℚ) by push_cast; ring]
      rw [Int.floor_int_add]
      norm_num
    rw [hnat, hrnd]
    unfold quantizeMag
    rw [if_pos he]
  · obtain ⟨k, hk⟩ : ∃ k, (-(e + 2)).toNat = k := ⟨_, rfl⟩
    have hkpos : 0 < k := by omega
    have hdvd : (2 : ℕ) ∣ 10 ^ k := dvd_pow (by norm_num) (by omega)
    have hd : (10 : ℚ) ^ (e + 2) = ((10 ^ k : ℕ) : ℚ)⁻¹ := by
      rw [show e + 2 = -((k : ℤ)) by omega, zpow_neg, zpow_natCast]
      push_cast
      ring
    have hval2 : decValueQ false c e * 100 =
        (c : ℚ) / ((10 ^ k : ℕ) : ℚ) := by
      rw [hval, hd]
      ring
    have hhalf : (c : ℚ) / ((10 ^ k : ℕ) : ℚ) + 1 / 2 =
        (((2 * c + 10 ^ k : ℕ) : ℤ) : ℚ) / ((2 * 10 ^ k : ℕ) : ℚ) := by
      have h0 : ((10 ^ k : ℕ) : ℚ) ≠ 0 := by positivity
      push_cast
      field_simp
      ring
    have hfl : ⌊(c : ℚ) / ((10 ^ k : ℕ) : ℚ) + 1 / 2⌋ =
        ((2 * c + 10 ^ k : ℕ) : ℤ) / ((2 * 10 ^ k : ℕ) : ℤ) := by
      rw [hhalf]
      exact_mod_cast Rat.floor_intCast_div_natCast
        ((2 * c + 10 ^ k : ℕ) : ℤ) (2 * 10 ^ k)
    have hnatdiv : (2 * c + 10 ^ k) / (2 * 10 ^ k) =
        (c + 10 ^ k / 2) / 10 ^ k := by
      calc (2 * c + 10 ^ k) / (2 * 10 ^ k)
          = (2 * c + 2 * (10 ^ k / 2)) / (2 * 10 ^ k) := by
            rw [Nat.mul_div_cancel' hdvd]
        _ = (2 * (c + 10 ^ k / 2)) / (2 * 10 ^ k) := by rw [Nat.mul_add]
        _ = (c + 10 ^ k / 2) / 10 ^ k :=
            Nat.mul_div_mul_left _ _ (by norm_num)
    unfold quantizeMag roundHalfUpZ
    rw [if_neg he, hk, hval2, if_pos (by positivity), hfl]
    rw [show ((2 * c + 10 ^ k : ℕ) : ℤ) / ((2 * 10 ^ k : ℕ) : ℤ) =
      (((2 * c + 10 ^ k) / (2 * 10 ^ k) : ℕ) : ℤ) from (Int.ofNat_tdiv _ _).symm]
    rw [hnatdiv]

/-- The integer-level two-decimal quantization used by `make_amount_cents` is
exactly the mathematical half-up rounding (ties away from zero) of one
hundred times the decimal's value. -/
theorem quantizeCents_eq_roundHalfUpZ (sign : Bool) (coeff : ℕ) (exp : ℤ) :
    quantizeCents sign coeff exp =
      roundHalfUpZ (decValueQ sign coeff exp * 100) := by
  cases sign with
  | false =>
    unfold quantizeCents
    rw [if_neg (by simp)]
    exact quantizeMag_eq_roundHalfUpZ coeff exp
  | true =>
    unfold quantizeCents
    rw [if_pos rfl]
    rw [decValueQ_true_eq_neg, show -decValueQ false coeff exp * 100 =
      -(decValueQ false coeff exp * 100) by ring,
      roundHalfUpZ_neg_eq (mul_nonneg (decValueQ_false_nonneg coeff exp)
        (by norm_num)),
      quantizeMag_eq_roundHalfUpZ coeff exp]

/-- Every finite amount `make_amount` returns is a two-decimal value: an
integer number of cents over one hundred. -/
theorem make_amount_ok_isTwoDp (s : String) (q : ℚ)
    (h : make_amount s = .ok q) :
    isTwoDp q = true ∧ ∃ cents : ℤ, q = (cents : ℚ) / 100 := by
  unfold make_amount at h
  cases hc : make_amount_cents s with
  | ok cents =>
    rw [hc] at h
    simp only [AmountResult.ok.injEq] at h
    subst h
    refine ⟨?_, cents, rfl⟩
    unfold isTwoDp
    rw [show (cents : ℚ) / 100 * 100 = (cents : ℚ) by field_simp]
    simp
  | nanAmount => rw [hc] at h; cases h
  | err => rw [hc] at h; cases h

/-! ## Claim theorems -/

/-- C1: for every id, date, description, posting sequence and metadata,
`Transaction` construction succeeds iff the sequence has at least 2 postings,
the absolute value of the sum of posting amounts is at most `0.01`, and all
postings share one currency; when any invariant is violated construction
fails with a validation error (the posting list is never truncated), and
every successfully constructed `Transaction` carries exactly the given
postings and satisfies all three invariants. -/
theorem transaction_construction_iff_invariants
    (id date description : String) (ps : List Posting)
    (metadata : List (String × String)) :
    ((buildTransaction id date description ps metadata).isOk = true ↔
      (2 ≤ ps.length ∧ |postingsTotal ps| ≤ 1 / 100 ∧
        ∀ p ∈ ps, ∀ q ∈ ps, p.currency = q.currency)) ∧
    (∀ t, buildTransaction id date description ps metadata = .ok t →
      t.postings = ps ∧ 2 ≤ ps.length ∧ |postingsTotal ps| ≤ 1 / 100 ∧
        ∀ p ∈ ps, ∀ q ∈ ps, p.currency = q.currency) := by
  have hcur : (∀ a ∈ ps.map Posting.currency, ∀ b ∈ ps.map Posting.currency,
      a = b) ↔ (∀ p ∈ ps, ∀ q ∈ ps, p.currency = q.currency) := by
    constructor
    · intro h p hp q hq
      exact h _ (List.mem_map_of_mem _ hp) _ (List.mem_map_of_mem _ hq)
    · intro h a ha b hb
      obtain ⟨p, hp, rfl⟩ := List.mem_map.mp ha
      obtain ⟨q, hq, rfl⟩ := List.mem_map.mp hb
      exact h p hp q hq
  unfold buildTransaction
  by_cases h1 : ps.length < 2
  · rw [if_pos h1]
    constructor
    · simp only [Except.isOk, Except.toBool, Bool.false_eq_true, false_iff]
      intro ⟨h2, _⟩
      omega
    · intro t ht
      cases ht
  rw [if_neg h1]
  by_cases h2 : 1 / 100 < |postingsTotal ps|
  · rw [if_pos h2]
    constructor
    · simp only [Except.isOk, Except.toBool, Bool.false_eq_true, false_iff]
      intro ⟨_, h3, _⟩
      exact absurd h2 (not_lt.mpr h3)
    · intro t ht
      cases ht
  rw [if_neg h2]
  by_cases h3 : 1 < ((ps.map Posting.currency).dedup).length
  · rw [if_pos h3]
    constructor
    · simp only [Except.isOk, Except.toBool, Bool.false_eq_true, false_iff]
      intro ⟨_, _, h4⟩
      exact absurd (dedup_length_le_one_of_const (hcur.mpr h4)) (by omega)
    · intro t ht
      cases ht
  rw [if_neg h3]
  have hinv : 2 ≤ ps.length ∧ |postingsTotal ps| ≤ 1 / 100 ∧
      ∀ p ∈ ps, ∀ q ∈ ps, p.currency = q.currency :=
    ⟨by omega, not_lt.mp h2, hcur.mp (const_of_dedup_length_le_one (by omega))⟩
  constructor
  · simp only [Except.isOk, Except.toBool, true_iff]
    exact hinv
  · intro t ht
    cases ht
    exact ⟨rfl, hinv⟩

/-- C1 witness: a concrete two-posting single-currency transaction with a
one-cent rounding residue constructs successfully and keeps its postings. -/
theorem transaction_construction_witness :
    (buildTransaction "txn1" "2024-01-05" "sale"
        [⟨"Assets:Cash", 118, "GEL"⟩, ⟨"Income:Sales", -100, "GEL"⟩,
          ⟨"Liabilities:VAT:Output", -18, "GEL"⟩] []).isOk = true ∧
    (∀ t, buildTransaction "txn1" "2024-01-05" "sale"
        [⟨"Assets:Cash", 118, "GEL"⟩, ⟨"Income:Sales", -100, "GEL"⟩,
          ⟨"Liabilities:VAT:Output", -18, "GEL"⟩] [] = .ok t →
      t.postings = [⟨"Assets:Cash", 118, "GEL"⟩, ⟨"Income:Sales", -100, "GEL"⟩,
          ⟨"Liabilities:VAT:Output", -18, "GEL"⟩]) :=
  ⟨((transaction_construction_iff_invariants "txn1" "2024-01-05" "sale"
      [⟨"Assets:Cash", 118, "GEL"⟩, ⟨"Income:Sales", -100, "GEL"⟩,
        ⟨"Liabilities:VAT:Output", -18, "GEL"⟩] []).1).mpr
      (by refine ⟨by norm_num, by norm_num [postingsTotal], ?_⟩; decide),
    fun t ht => ((transaction_construction_iff_invariants "txn1" "2024-01-05"
      "sale" [⟨"Assets:Cash", 118, "GEL"⟩, ⟨"Income:Sales", -100, "GEL"⟩,
        ⟨"Liabilities:VAT:Output", -18, "GEL"⟩] []).2 t ht).1⟩

/-- C2 counterexample: the claim says the splitter returns net and tax both
rounded to 2 decimal places; at `total = 100`, `rate = 0.18` the code returns
`net = 5000/59 = 84.745762...`, not the two-decimal value `84.75` the claim
mandates — the returned net is not representable with two decimals at all. -/
theorem vat_split_not_rounded_counterexample :
    calculate_vat_amounts vatRate 100 ≠ (8475 / 100, 1525 / 100) ∧
    isTwoDp (calculate_vat_amounts vatRate 100).1 = false := by
  constructor
  · intro h
    have h1 := congrArg Prod.fst h
    norm_num [calculate_vat_amounts, vatRate] at h1
  · have hv : (calculate_vat_amounts vatRate 100).1 * 100 = 500000 / 59 := by
      norm_num [calculate_vat_amounts, vatRate]
    unfold isTwoDp
    rw [hv]
    simp only [beq_eq_false_iff_ne, ne_eq]
    intro hden
    have h1 : ((((500000 : ℚ) / 59).num : ℚ)) = (500000 : ℚ) / 59 :=
      (Rat.den_eq_one_iff _).mp hden
    have h2 : ((((500000 : ℚ) / 59).num : ℚ)) * 59 = 500000 := by
      rw [h1]
      norm_num
    have h3 : ((500000 : ℚ) / 59).num * 59 = 500000 := by exact_mod_cast h2
    omega

/-- C2 (amended): for every positive total and rate above `-1` the splitter
returns `net = total / (1 + rate)` and `tax = total - net` unrounded
(two-decimal rounding happens only at serialization); the reconstruction is
exact, `net + tax = total`, hence within the `0.01` tolerance. -/
theorem vat_split_exact_reconstruction (total rate : ℚ)
    (_hpos : 0 < total) (_hrate : -1 < rate) :
    (calculate_vat_amounts rate total).1 = total / (1 + rate) ∧
    (calculate_vat_amounts rate total).1 + (calculate_vat_amounts rate total).2
      = total ∧
    |(calculate_vat_amounts rate total).1 +
      (calculate_vat_amounts rate total).2 - total| ≤ 1 / 100 := by
  refine ⟨rfl, by simp [calculate_vat_amounts], ?_⟩
  simp only [calculate_vat_amounts]
  norm_num

/-- C2 witness: the splitter at `total = 118`, `rate = 0.18` reconstructs the
total exactly. -/
theorem vat_split_exact_reconstruction_witness :
    (calculate_vat_amounts vatRate 118).1 = 118 / (1 + vatRate) ∧
    (calculate_vat_amounts vatRate 118).1 + (calculate_vat_amounts vatRate 118).2
      = 118 ∧
    |(calculate_vat_amounts vatRate 118).1 +
      (calculate_vat_amounts vatRate 118).2 - 118| ≤ 1 / 100 :=
  vat_split_exact_reconstruction 118 vatRate (by norm_num)
    (by norm_num [vatRate])

/-- C5 counterexample: the claim says the splitter fails with a validation
error when the total is zero; instead `calculate_vat_amounts` performs no
validation and returns the numeric result `(0, 0)` for a zero total at the
configured rate. -/
theorem vat_split_zero_total_counterexample :
    calculate_vat_amounts vatRate 0 = (0, 0) := by
  norm_num [calculate_vat_amounts, vatRate]

/-- C5 (amended): the splitter itself never raises; a zero total is instead
skipped one caller up — `create_beancount_entry` returns no entry for a zero
cleaned amount — and for every nonzero total the generated entry's three
posting amounts (total, negated net, negated VAT) sum to exactly zero.  The
rate is the fixed configuration value `0.18`, so `rate ≤ -1` is unreachable. -/
theorem create_entry_skips_zero_and_balances (total : ℚ) (h : total ≠ 0) :
    create_beancount_entry_amounts total =
      some (total, -(calculate_vat_amounts vatRate total).1,
        -(calculate_vat_amounts vatRate total).2) ∧
    total + -(calculate_vat_amounts vatRate total).1 +
      -(calculate_vat_amounts vatRate total).2 = 0 ∧
    create_beancount_entry_amounts 0 = none := by
  refine ⟨by simp [create_beancount_entry_amounts, h], ?_,
    by simp [create_beancount_entry_amounts]⟩
  simp only [calculate_vat_amounts]
  ring

/-- C5 witness: at `total = 118` an entry is produced and balances; at zero it
is skipped. -/
theorem create_entry_skips_zero_and_balances_witness :
    create_beancount_entry_amounts 118 =
      some (118, -(calculate_vat_amounts vatRate 118).1,
        -(calculate_vat_amounts vatRate 118).2) ∧
    (118 : ℚ) + -(calculate_vat_amounts vatRate 118).1 +
      -(calculate_vat_amounts vatRate 118).2 = 0 ∧
    create_beancount_entry_amounts 0 = none :=
  create_entry_skips_zero_and_balances 118 (by norm_num)

/-- C9: for all non-negative integer counts, the count cross-check reports
`matched` on equality, `ledgerHasExtra (ledger - source)` when the ledger has
more postings than the source has records, and
`ledgerMissing (source - ledger)` when it has fewer. -/
theorem cross_check_counts_classification (source_count ledger_count : Nat) :
    (source_count = ledger_count →
      cross_check_counts source_count ledger_count = .matched) ∧
    (source_count < ledger_count →
      cross_check_counts source_count ledger_count =
        .ledgerHasExtra (ledger_count - source_count)) ∧
    (ledger_count < source_count →
      cross_check_counts source_count ledger_count =
        .ledgerMissing (source_count - ledger_count)) := by
  refine ⟨?_, ?_, ?_⟩ <;> intro h <;> unfold cross_check_counts
  · rw [if_neg (by omega), if_neg (by omega)]
  · rw [if_pos (by omega)]
  · rw [if_neg (by omega), if_pos (by omega)]

/-- C9 witness: a source count of 100 against a ledger posting count of 120
yields `ledgerHasExtra 20`. -/
theorem cross_check_counts_witness :
    cross_check_counts 100 120 = .ledgerHasExtra 20 :=
  (cross_check_counts_classification 100 120).2.1 (by norm_num)

/-- C3 counterexample: the claim says the cash account is chosen only when no
bank indicator appears in the same field, but the code checks the cash list
first: the field `"cash transfer"` contains the bank indicator `"transfer"`
yet is routed to the cash account, not the bank account. -/
theorem payment_cash_overrides_bank_counterexample :
    determine_payment_account (some "cash transfer")
        (get_customer_accounts "Acme") = (get_customer_accounts "Acme").cash ∧
    hasBankIndicator "cash transfer" = true ∧
    determine_payment_account (some "cash transfer")
        (get_customer_accounts "Acme") ≠ (get_customer_accounts "Acme").bank := by
  refine ⟨by decide, by decide, ?_⟩
  rw [show determine_payment_account (some "cash transfer")
      (get_customer_accounts "Acme") = (get_customer_accounts "Acme").cash
    from by decide]
  exact customer_cash_ne_bank "Acme"

/-- C3 (amended): the asset-side account selection returns the cash account
iff the payment-method field is present and contains a cash indicator
(case-insensitive substring match); the cash check runs first, so a cash
indicator wins even when a bank indicator appears in the same field.  In
every other case — no cash indicator, or the field absent — the bank account
is returned. -/
theorem payment_account_cash_iff_cash_indicator (org : String)
    (payment_method : Option String) :
    (determine_payment_account payment_method (get_customer_accounts org) =
        (get_customer_accounts org).cash ↔
      ∃ s, payment_method = some s ∧ hasCashIndicator s = true) ∧
    (determine_payment_account payment_method (get_customer_accounts org) =
        (get_customer_accounts org).bank ↔
      ∀ s, payment_method = some s → hasCashIndicator s = false) := by
  have hne := customer_cash_ne_bank org
  cases payment_method with
  | none =>
    have hd : determine_payment_account none (get_customer_accounts org) =
        (get_customer_accounts org).bank := rfl
    rw [hd]
    constructor
    · constructor
      · intro h
        exact absurd h.symm hne
      · rintro ⟨s, hs, _⟩
        cases hs
    · exact ⟨fun _ s hs => Option.noConfusion hs, fun _ => rfl⟩
  | some s =>
    by_cases hc : hasCashIndicator s = true
    · have hd : determine_payment_account (some s) (get_customer_accounts org) =
          (get_customer_accounts org).cash := by
        simp only [determine_payment_account]
        rw [show (cashWordsXL.any
          (fun w => substrB w.toList (lowerList s.toList))) = true from hc]
        simp
      rw [hd]
      constructor
      · exact ⟨fun _ => ⟨s, rfl, hc⟩, fun _ => rfl⟩
      · constructor
        · intro h
          exact absurd h hne
        · intro h
          exact absurd (h s rfl) (by simp [hc])
    · have hcf : hasCashIndicator s = false := by simpa using hc
      have hd : determine_payment_account (some s) (get_customer_accounts org) =
          (get_customer_accounts org).bank := by
        simp only [determine_payment_account]
        rw [show (cashWordsXL.any
          (fun w => substrB w.toList (lowerList s.toList))) = false from hcf]
        simp
      rw [hd]
      constructor
      · constructor
        · intro h
          exact absurd h.symm hne
        · rintro ⟨s2, hs2, hcs2⟩
          rw [Option.some_inj] at hs2
          subst hs2
          rw [hcf] at hcs2
          cases hcs2
      · constructor
        · intro _ s2 hs2
          rw [Option.some_inj] at hs2
          subst hs2
          exact hcf
        · intro _
          rfl

/-- C3 witness: the Georgian field `"ნაღდი გადახდა"` (cash payment) contains
a cash indicator and routes to the cash account. -/
theorem payment_account_cash_iff_witness :
    determine_payment_account (some "ნაღდი გადახდა")
        (get_customer_accounts "Acme") = (get_customer_accounts "Acme").cash :=
  ((payment_account_cash_iff_cash_indicator "Acme"
      (some "ნაღდი გადახდა")).1).mpr ⟨"ნაღდი გადახდა", rfl, by decide⟩

/-- C4: the claim is the intended contract — `make_amount` fails for every
input that is not a base-10 number and otherwise rounds half-up to two
decimals — and the code matches it on ordinary inputs (`"abc"` and `""` fail,
`"2.675"` rounds up to `2.68`, `"-0.005"` rounds away from zero to `-0.01`),
but it is violated at the failing input `"nan"`: `Decimal('nan')` constructs
a quiet NaN and `quantize` propagates it silently, so `make_amount` returns a
NaN amount instead of raising. -/
theorem make_amount_nan_not_rejected :
    make_amount "nan" = .nanAmount ∧
    make_amount "NaN" = .nanAmount ∧
    make_amount "abc" = .err ∧
    make_amount "" = .err ∧
    make_amount "Infinity" = .err ∧
    make_amount "2.675" = .ok (268 / 100) ∧
    make_amount "-0.005" = .ok (-(1 / 100)) := by
  refine ⟨?_, ?_, ?_, ?_, ?_, ?_, ?_⟩
  · unfold make_amount
    rw [show make_amount_cents "nan" = .nanAmount from by decide]
  · unfold make_amount
    rw [show make_amount_cents "NaN" = .nanAmount from by decide]
  · unfold make_amount
    rw [show make_amount_cents "abc" = .err from by decide]
  · unfold make_amount
    rw [show make_amount_cents "" = .err from by decide]
  · unfold make_amount
    rw [show make_amount_cents "Infinity" = .err from by decide]
  · unfold make_amount
    rw [show make_amount_cents "2.675" = .ok 268 from by decide]
    norm_num
  · unfold make_amount
    rw [show make_amount_cents "-0.005" = .ok (-1) from by decide]
    norm_num

/-- C6: `normalize_entity_name` is total by construction and safe: for every
input — empty, pure whitespace, digit- or symbol-initial alike — the output
is at most 50 characters, every character is in the allowed account-name set
(alphanumeric, including the Georgian letters, or hyphen), the output is
never empty, and when the normalization steps leave an empty result the
literal fallback `"Unknown"` is returned. -/
theorem normalize_entity_name_total_safe (l : List Char) :
    (cleanOrganizationName l).length ≤ 50 ∧
    (∀ c ∈ cleanOrganizationName l, allowedNameChar c = true) ∧
    cleanOrganizationName l ≠ [] ∧
    (cleanCore l = [] → cleanOrganizationName l = "Unknown".toList) := by
  refine ⟨cleanOrganizationName_length_le l,
    fun c hc => mem_cleanOrganizationName_allowed hc,
    cleanOrganizationName_ne_nil l,
    fun h => ?_⟩
  unfold cleanOrganizationName
  rw [if_pos h]

/-- C6 witness: a pure-symbol input is normalized to the fallback
`"Unknown"`. -/
theorem normalize_entity_name_total_safe_witness :
    cleanOrganizationName "!!!".toList = "Unknown".toList ∧
    (cleanOrganizationName "!!!".toList).length ≤ 50 :=
  ⟨(normalize_entity_name_total_safe "!!!".toList).2.2.2 (by decide),
    (normalize_entity_name_total_safe "!!!".toList).1⟩

/-- C7 counterexample: normalization is not idempotent.  For the input
`"a_ b"` the first pass yields `"a--b"` — the space collapses to a hyphen and
only afterwards the underscore is replaced by a second hyphen — while the
second pass collapses the two hyphens to one, yielding `"a-b"`. -/
theorem normalize_not_idempotent_counterexample :
    cleanOrganizationName (cleanOrganizationName "a_ b".toList) ≠
      cleanOrganizationName "a_ b".toList := by
  decide

/-- C7 (amended): applying the normalization twice gives the same result as
applying it once for every input whose first normalization yields no two
adjacent hyphens and no trailing hyphen (the two escapes: an underscore next
to a collapsed separator becomes a second hyphen, and truncation at character
50 can expose a trailing hyphen). -/
theorem normalize_idempotent_of_no_double_hyphen (l : List Char)
    (h1 : noDoubleHyphen (cleanOrganizationName l) = true)
    (h2 : endsWithHyphen (cleanOrganizationName l) = false) :
    cleanOrganizationName (cleanOrganizationName l) =
      cleanOrganizationName l :=
  cleanOrganizationName_fixed (cleanOrganizationName_ne_nil l)
    (cleanOrganizationName_length_le l)
    (fun _ hc => mem_cleanOrganizationName_allowed hc)
    (fun _ hc => cleanOrganizationName_head_alnum hc)
    h1 h2

/-- C7 witness: `"Acme Corp"` normalizes to `"Acme-Corp"`, which has no
double hyphen and no trailing hyphen, and renormalizes to itself. -/
theorem normalize_idempotent_witness :
    cleanOrganizationName (cleanOrganizationName "Acme Corp".toList) =
      cleanOrganizationName "Acme Corp".toList :=
  normalize_idempotent_of_no_double_hyphen "Acme Corp".toList
    (by decide) (by decide)

/-- C8 counterexample: the claim says the balance check is true iff the
ledger sum is within `0.01` of zero and in particular true for every ledger
of successfully-constructed transactions; but the code compares the total
with zero exactly.  A transaction with a one-cent rounding residue constructs
successfully, its ledger total `0.01` is within the tolerance, and the check
is nevertheless false. -/
theorem zero_sum_check_exact_counterexample :
    (buildTransaction "t1" "2024-01-01" "residue"
        [⟨"Assets:Bank:Checking", 1, "GEL"⟩, ⟨"Income:Sales", -99 / 100, "GEL"⟩]
        []).isOk = true ∧
    |ledgerTotal [⟨"Assets:Bank:Checking", 1, "GEL"⟩,
        ⟨"Income:Sales", -99 / 100, "GEL"⟩]| ≤ 1 / 100 ∧
    zero_sum_check [⟨"Assets:Bank:Checking", 1, "GEL"⟩,
        ⟨"Income:Sales", -99 / 100, "GEL"⟩] = false := by
  have htot : postingsTotal [⟨"Assets:Bank:Checking", 1, "GEL"⟩,
      ⟨"Income:Sales", -99 / 100, "GEL"⟩] = 1 / 100 := by
    simp [postingsTotal]
    norm_num
  have hled : ledgerTotal [⟨"Assets:Bank:Checking", 1, "GEL"⟩,
      ⟨"Income:Sales", -99 / 100, "GEL"⟩] = 1 / 100 := by
    simp [ledgerTotal]
    norm_num
  refine ⟨?_, ?_, ?_⟩
  · unfold buildTransaction
    rw [htot]
    rw [if_neg (by simp), if_neg (by rw [abs_of_nonneg (by norm_num)]; norm_num),
      if_neg (by decide)]
    rfl
  · rw [hled, abs_of_nonneg (by norm_num)]
  · unfold zero_sum_check
    rw [totalBalance_eq_ledgerTotal, hled]
    simp

/-- C8 (amended): `zero_sum_check` is true iff the sum of all (GEL) posting
amounts across the ledger is exactly zero — the per-account regrouping does
not change the sum — and it is true for every ledger assembled from
transactions whose postings each sum to exactly zero.  A ledger of
successfully-constructed transactions can fail the check once per-transaction
rounding residues (each within `0.01`) leave a nonzero total. -/
theorem zero_sum_check_exact_and_structural :
    (∀ l : List Posting, zero_sum_check l = true ↔ ledgerTotal l = 0) ∧
    (∀ ts : List (List Posting), (∀ t ∈ ts, ledgerTotal t = 0) →
      zero_sum_check ts.flatten = true) := by
  have hiff : ∀ l : List Posting, zero_sum_check l = true ↔ ledgerTotal l = 0 := by
    intro l
    unfold zero_sum_check
    rw [totalBalance_eq_ledgerTotal]
    simp
  have haux : ∀ ts : List (List Posting), (∀ t ∈ ts, ledgerTotal t = 0) →
      ledgerTotal ts.flatten = 0 := by
    intro ts
    induction ts with
    | nil => intro _; simp [ledgerTotal]
    | cons t r ih =>
      intro h
      rw [List.flatten_cons, ledgerTotal_append, h t (List.mem_cons_self _ _),
        ih (fun x hx => h x (List.mem_cons_of_mem _ hx))]
      norm_num
  exact ⟨hiff, fun ts h => (hiff _).mpr (haux ts h)⟩

/-- C8 witness: a one-transaction ledger whose postings sum to exactly zero
passes the balance check. -/
theorem zero_sum_check_witness :
    zero_sum_check ([[⟨"Assets:Cash", 5, "GEL"⟩,
      ⟨"Income:Sales", -5, "GEL"⟩]].flatten) = true := by
  refine zero_sum_check_exact_and_structural.2 _ ?_
  intro t ht
  simp only [List.mem_singleton] at ht
  subst ht
  simp [ledgerTotal]

/-- C10: the runtime check makes a `Result` hold exactly one of value or
error — construction with both `None` or both non-`None` raises — so for
every constructed `Result`, `is_ok` and `is_err` are opposite booleans and
`unwrap` raises iff the `Result` holds an error; for a payload type with no
non-`None` values (`Result[None, E]`, as returned by `validate_format`,
`write_transaction` and `finalize`) every constructible `Result` is an error,
so a successful such `Result` is unrepresentable. -/
theorem result_exclusive_invariant (T E : Type) (v : Option T) (e : Option E) :
    ((mkResult v e).isSome = true ↔ v.isSome ≠ e.isSome) ∧
    (∀ r : PResult T E, mkResult v e = some r →
      (r.is_ok = !r.is_err) ∧ (r.unwrap.isNone = true ↔ r.is_err = true)) ∧
    (∀ (v0 : Option Empty) (e0 : Option E) (r0 : PResult Empty E),
      mkResult v0 e0 = some r0 → r0.is_ok = false ∧ r0.is_err = true) := by
  refine ⟨?_, ?_, ?_⟩
  · unfold mkResult
    by_cases h : v.isNone = e.isNone
    · rw [if_pos h]
      cases v <;> cases e <;> simp_all
    · rw [if_neg h]
      cases v <;> cases e <;> simp_all
  · intro r hr
    unfold mkResult at hr
    by_cases h : v.isNone = e.isNone
    · rw [if_pos h] at hr
      cases hr
    · rw [if_neg h] at hr
      rw [Option.some_inj] at hr
      subst hr
      cases v <;> cases e <;>
        simp_all [PResult.is_ok, PResult.is_err, PResult.unwrap]
  · intro v0 e0 r0 hr
    have hv0 : v0 = none := by
      cases v0 with
      | none => rfl
      | some x => cases x
    subst hv0
    unfold mkResult at hr
    cases e0 with
    | none => simp at hr
    | some y =>
      rw [if_neg (by simp)] at hr
      rw [Option.some_inj] at hr
      subst hr
      simp [PResult.is_ok, PResult.is_err]

/-- C10 witness: a `Result` built from a value and no error is constructible
and well-formed. -/
theorem result_exclusive_witness :
    (mkResult (some 1) (none : Option String)).isSome = true :=
  ((result_exclusive_invariant Nat String (some 1) none).1).mpr (by simp)

end Journal
